import Mathlib

/-!
Shallow embedding of the LFG (Looking For Group) dungeon queuing system
(`src/LookingForGroup.cpp`, class `LFGSystem`).

Modelling choices:
- `std::queue<int>` becomes `List Int` (front of the list = front of the queue;
  `push` appends at the back, `pop` removes the head).
- Every mutex-protected critical section of the C++ code becomes one atomic
  operation on an explicit `EngState`.  Concurrency is a labelled small-step
  relation `Step` over a system state `Sys` that pairs the engine state with a
  program-counter (`Phase`) for each instance-worker thread; arbitrary thread
  interleavings are arbitrary `Trace`s of `Step`s.
- The popping of a `std::queue` is fallible (`dequeueOne` returns `Option`),
  so the undefined-behaviour "pop on empty" branch is visible as `none`.
- C++ `int` counters that can only grow from 0 are `Nat`
  (`partiesServed`, `totalPartiesFormed`); durations and the
  `instancesWaiting` counter are `Int`.
-/

namespace LFG

/-- One dungeon instance record (struct `Instance` in the C++ source):
stable id, textual status, cumulative parties served, cumulative time served,
and the active flag. -/
structure Instance where
  id : Int
  status : String
  partiesServed : Nat
  totalTimeServed : Int
  active : Bool
deriving DecidableEq

/-- Shared state of the `LFGSystem` engine: the three role queues, the
instance table, the statistics counters, the running flag, the
`instancesWaiting` counter and the configured duration range `t1..t2`. -/
structure EngState where
  tankQueue : List Int
  healerQueue : List Int
  dpsQueue : List Int
  instances : List Instance
  totalPartiesFormed : Nat
  running : Bool
  instancesWaiting : Int
  t1 : Int
  t2 : Int
deriving DecidableEq

/-- Instance table built by the `LFGSystem` constructor: ids `1..n`, status
"empty", zero metrics, inactive. -/
def mkInstances (n : Nat) : List Instance :=
  (List.range n).map (fun (i : Nat) =>
    { id := (i : Int) + 1, status := "empty", partiesServed := 0,
      totalTimeServed := 0, active := false })

/-- Engine state after `LFGSystem(n, minTime, maxTime)`: empty queues, `n`
fresh instances, counters zero, `running` initialized `true`. -/
def mkLFG (n : Nat) (minTime maxTime : Int) : EngState :=
  { tankQueue := [], healerQueue := [], dpsQueue := [],
    instances := mkInstances n, totalPartiesFormed := 0, running := true,
    instancesWaiting := 0, t1 := minTime, t2 := maxTime }

/-- Critical section of `LFGSystem::addPlayers`: push `tanks`, `healers`,
`dps` tokens (each the value 1, as in the source) at the back of the three
queues.  A non-positive count pushes nothing, as the C++ `for` loops do. -/
def addPlayers (tanks healers dps : Int) (s : EngState) : EngState :=
  { s with
    tankQueue := s.tankQueue ++ List.replicate tanks.toNat 1,
    healerQueue := s.healerQueue ++ List.replicate healers.toNat 1,
    dpsQueue := s.dpsQueue ++ List.replicate dps.toNat 1 }

/-- `LFGSystem::canFormParty`:
`tankQueue.size() >= 1 && healerQueue.size() >= 1 && dpsQueue.size() >= 3`.
A pure read of the three queue sizes. -/
def canFormParty (s : EngState) : Bool :=
  decide (1 ≤ s.tankQueue.length) && decide (1 ≤ s.healerQueue.length) &&
    decide (3 ≤ s.dpsQueue.length)

/-- `std::queue::pop` on a role queue: removes the oldest token; popping an
empty queue is undefined behaviour in C++, modelled as `none`. -/
def dequeueOne (q : List Int) : Option (List Int) :=
  match q with
  | [] => none
  | _ :: rest => some rest

/-- Update applied to `instances[instanceID]` on the success path of
`LFGSystem::tryFormParty`: status "active", active flag, `partiesServed++`. -/
def formUpdate (inst : Instance) : Instance :=
  { inst with
    status := "active"
    active := true
    partiesServed := inst.partiesServed + 1 }

/-- Replace the element at index `i` by `f` of it; out-of-range indices leave
the list unchanged (they never occur for valid instance ids). -/
def modifyIdx {α : Type} (f : α → α) : List α → Nat → List α
  | [], _ => []
  | x :: xs, 0 => f x :: xs
  | x :: xs, n + 1 => x :: modifyIdx f xs n

/-- Critical section of `LFGSystem::tryFormParty`, entered with the lock held
at the moment the `cv.wait_for` call returns.  The predicate-wait returns
exactly the value of `canFormParty() && instancesWaiting > 0` evaluated under
the lock, so the result is a function of the state at that instant.  On the
success path one tank, one healer and three dps tokens are popped (each pop
modelled fallibly via `dequeueOne`), the instance record is updated and
`totalPartiesFormed` is incremented.  `none` would mean a pop on an empty
queue was executed. -/
def tryFormParty (instanceID : Nat) (s : EngState) : Option (Bool × EngState) :=
  if !(canFormParty s && decide (0 < s.instancesWaiting)) then
    some (false, s)
  else if !(canFormParty s && s.running) then
    some (false, s)
  else do
    let tq ← dequeueOne s.tankQueue
    let hq ← dequeueOne s.healerQueue
    let dq1 ← dequeueOne s.dpsQueue
    let dq2 ← dequeueOne dq1
    let dq3 ← dequeueOne dq2
    some (true,
      { s with
        tankQueue := tq
        healerQueue := hq
        dpsQueue := dq3
        instances := modifyIdx formUpdate s.instances instanceID
        totalPartiesFormed := s.totalPartiesFormed + 1 })

/-- Total description of the success-path state of `tryFormParty`: queues
lose their heads (three tokens for dps), the instance record is updated, the
global counter is incremented. -/
def formParty (instanceID : Nat) (s : EngState) : EngState :=
  { s with
    tankQueue := s.tankQueue.tail
    healerQueue := s.healerQueue.tail
    dpsQueue := s.dpsQueue.tail.tail.tail
    instances := modifyIdx formUpdate s.instances instanceID
    totalPartiesFormed := s.totalPartiesFormed + 1 }

/-- Critical section at the end of `LFGSystem::runDungeon`: status back to
"empty", active flag cleared, the elapsed `dungeonTime` added to the
instance's `totalTimeServed`. -/
def completeDungeon (instanceId : Nat) (dungeonTime : Int) (s : EngState) :
    EngState :=
  { s with
    instances := modifyIdx
      (fun inst =>
        { inst with
          status := "empty"
          active := false
          totalTimeServed := inst.totalTimeServed + dungeonTime })
      s.instances instanceId }

/-- State effect of `LFGSystem::stop`: `running.store(false)` (the
`notify_all` and the thread joins do not change the shared state). -/
def stop (s : EngState) : EngState :=
  { s with running := false }

/-- Validation and clamping performed by `main` before the engine is
constructed: reject `n <= 0`, negative actor counts, a negative minimum
duration or an inverted range; afterwards cap `t2` at 15.  `none` models the
early `return 1` (the engine is never constructed on that path). -/
structure Config where
  n : Int
  t : Int
  h : Int
  d : Int
  t1 : Int
  t2 : Int
deriving DecidableEq

/-- Input validation of `main` (`src/LookingForGroup.cpp`, lines 305-314). -/
def validateAndClamp (n t h d t1 t2 : Int) : Option Config :=
  if n ≤ 0 ∨ t < 0 ∨ h < 0 ∨ d < 0 ∨ t1 < 0 ∨ t2 < t1 then
    none
  else if t2 > 15 then
    some { n := n, t := t, h := h, d := d, t1 := t1, t2 := 15 }
  else
    some { n := n, t := t, h := h, d := d, t1 := t1, t2 := t2 }

/-! ### Basic properties of the pure operations -/

/-- Unfolding of the admission predicate. -/
lemma canForm_iff (s : EngState) :
    canFormParty s = true ↔
      1 ≤ s.tankQueue.length ∧ 1 ≤ s.healerQueue.length ∧
        3 ≤ s.dpsQueue.length := by
  simp [canFormParty, and_assoc]

/-- A nonempty-by-length list is a cons. -/
lemma list_shape1 : ∀ (l : List Int), 1 ≤ l.length → ∃ a r, l = a :: r
  | a :: r, _ => ⟨a, r, rfl⟩

/-- A list of length at least three starts with three elements. -/
lemma list_shape3 :
    ∀ (l : List Int), 3 ≤ l.length → ∃ a b c r, l = a :: b :: c :: r
  | a :: b :: c :: r, _ => ⟨a, b, c, r, rfl⟩
  | [], h => absurd h (by simp)
  | [_], h => absurd h (by simp)
  | [_, _], h => absurd h (by simp)

/-- On the success path `tryFormParty` computes exactly `formParty`. -/
lemma tryFormParty_success (w : Nat) (s : EngState)
    (h1 : canFormParty s = true) (h2 : 0 < s.instancesWaiting)
    (h3 : s.running = true) :
    tryFormParty w s = some (true, formParty w s) := by
  obtain ⟨hT, hH, hD⟩ := (canForm_iff s).mp h1
  obtain ⟨a, ta, hta⟩ := list_shape1 _ hT
  obtain ⟨b, tb, htb⟩ := list_shape1 _ hH
  obtain ⟨c, d, e, td, htd⟩ := list_shape3 _ hD
  simp [tryFormParty, formParty, h1, h2, h3, hta, htb, htd, dequeueOne]

/-- When the wait times out, the wake condition fails or the running flag is
down, `tryFormParty` reports failure and returns the state unchanged. -/
lemma tryFormParty_fail (w : Nat) (s : EngState)
    (h : ¬(canFormParty s = true ∧ 0 < s.instancesWaiting ∧
        s.running = true)) :
    tryFormParty w s = some (false, s) := by
  cases hc : canFormParty s with
  | false => simp [tryFormParty, hc]
  | true =>
    by_cases h2 : 0 < s.instancesWaiting
    · cases hr : s.running with
      | false => simp [tryFormParty, hc, h2, hr]
      | true => exact absurd ⟨hc, h2, hr⟩ h
    · simp [tryFormParty, hc, h2]

/-- Exhaustive description of the two outcomes of `tryFormParty`. -/
lemma tryFormParty_cases (w : Nat) (s : EngState) :
    tryFormParty w s = some (false, s) ∨
      (canFormParty s = true ∧ 0 < s.instancesWaiting ∧ s.running = true ∧
        tryFormParty w s = some (true, formParty w s)) := by
  by_cases h : canFormParty s = true ∧ 0 < s.instancesWaiting ∧
      s.running = true
  · exact Or.inr ⟨h.1, h.2.1, h.2.2,
      tryFormParty_success w s h.1 h.2.1 h.2.2⟩
  · exact Or.inl (tryFormParty_fail w s h)

/-! ### List helper lemmas -/

/-- A `get?` hit is inside the list. -/
lemma get?_some_lt {α : Type} :
    ∀ (l : List α) (n : Nat) (x : α), l.get? n = some x → n < l.length
  | _ :: _, 0, _, _ => Nat.succ_pos _
  | _ :: xs, n + 1, x, h => Nat.succ_lt_succ (get?_some_lt xs n x h)
  | [], _, _, h => by simp [List.get?] at h

/-- `modifyIdx` preserves the length. -/
lemma modifyIdx_length {α : Type} (f : α → α) :
    ∀ (l : List α) (i : Nat), (modifyIdx f l i).length = l.length
  | [], _ => rfl
  | _ :: _, 0 => rfl
  | x :: xs, n + 1 => by
    simp only [modifyIdx, List.length_cons, modifyIdx_length f xs n]

/-- `modifyIdx` rewrites the hit index. -/
lemma modifyIdx_get?_self {α : Type} (f : α → α) :
    ∀ (l : List α) (i : Nat) (x : α), l.get? i = some x →
      (modifyIdx f l i).get? i = some (f x)
  | y :: _, 0, x, h => by
    simp only [List.get?] at h
    simp only [modifyIdx, List.get?, Option.some.injEq] at h ⊢
    rw [h]
  | _ :: xs, n + 1, x, h => modifyIdx_get?_self f xs n x h
  | [], _, _, h => by simp [List.get?] at h

/-- `modifyIdx` leaves every other index unread. -/
lemma modifyIdx_get?_ne {α : Type} (f : α → α) :
    ∀ (l : List α) (i j : Nat), i ≠ j →
      (modifyIdx f l i).get? j = l.get? j
  | [], _, _, _ => rfl
  | _ :: _, 0, 0, hne => absurd rfl hne
  | _ :: _, 0, _ + 1, _ => rfl
  | _ :: _, _ + 1, 0, _ => rfl
  | _ :: xs, i + 1, j + 1, hne =>
    modifyIdx_get?_ne f xs i j (fun h => hne (by rw [h]))

/-- Second call to `stop` on an already stopped state is the identity. -/
lemma stop_of_not_running (s : EngState) (h : s.running = false) :
    stop s = s := by
  cases s with
  | mk tq hq dq ins tp run iw a b =>
    have h' : run = false := h
    subst h'
    rfl

/-! ### Worker threads as a labelled small-step system

Each instance worker runs `LFGSystem::instanceWorker`.  Its control points
between atomic actions are:

- `top`: about to evaluate `running.load()` at the head of the `while` loop;
- `preInc`: observed `running == true`, about to run `instancesWaiting++`;
- `seeking`: inside `tryFormParty` (the bounded wait);
- `inDungeon`: `tryFormParty` returned `true`, the dungeon simulation is
  running, the completion critical section has not executed yet;
- `doneRun` / `doneFail`: past the dungeon (resp. past the failed attempt)
  and the trailing sleep, about to run `instancesWaiting--`;
- `exited`: observed `running == false` and left the loop.
-/

/-- Program counter of one instance-worker thread. -/
inductive Phase
  | top
  | preInc
  | seeking
  | inDungeon
  | doneRun
  | doneFail
  | exited
deriving DecidableEq

/-- Whole-system state: engine state plus one phase per worker (worker `w`
drives instance index `w`). -/
structure Sys where
  eng : EngState
  phases : List Phase
deriving DecidableEq

/-- System state right after `LFGSystem(n, minTime, maxTime)` and `start()`:
all workers at the loop head. -/
def mkSys (n : Nat) (minTime maxTime : Int) : Sys :=
  { eng := mkLFG n minTime maxTime, phases := List.replicate n Phase.top }

/-- Overwrite worker `w`'s phase. -/
def setPhase (sys : Sys) (w : Nat) (p : Phase) : Sys :=
  { sys with phases := modifyIdx (fun _ => p) sys.phases w }

/-- Names of the atomic actions, recording which worker (if any) acted. -/
inductive Label
  | loadRun (w : Nat)
  | incWaiting (w : Nat)
  | seek (w : Nat)
  | complete (w : Nat)
  | decWaiting (w : Nat)
  | submit (tanks healers dps : Int)
  | stopL
deriving DecidableEq

/-- Worker that performed an action, if it was a worker action. -/
def labelWorker : Label → Option Nat
  | Label.loadRun w => some w
  | Label.incWaiting w => some w
  | Label.seek w => some w
  | Label.complete w => some w
  | Label.decWaiting w => some w
  | Label.submit _ _ _ => none
  | Label.stopL => none

/-- Whether the action is a producer call to `addPlayers`. -/
def labelIsSubmit : Label → Bool
  | Label.submit _ _ _ => true
  | _ => false

/-- One atomic action of the system.  Worker actions follow
`LFGSystem::instanceWorker` line by line; `submit` is a producer calling
`addPlayers`; `stopL` is `LFGSystem::stop`. -/
inductive Step : Sys → Label → Sys → Prop
  | loadTrue (sys : Sys) (w : Nat)
      (hp : sys.phases.get? w = some Phase.top)
      (hr : sys.eng.running = true) :
      Step sys (Label.loadRun w) (setPhase sys w Phase.preInc)
  | loadFalse (sys : Sys) (w : Nat)
      (hp : sys.phases.get? w = some Phase.top)
      (hr : sys.eng.running = false) :
      Step sys (Label.loadRun w) (setPhase sys w Phase.exited)
  | incWaiting (sys : Sys) (w : Nat)
      (hp : sys.phases.get? w = some Phase.preInc) :
      Step sys (Label.incWaiting w)
        (setPhase
          { sys with
            eng := { sys.eng with
                     instancesWaiting := sys.eng.instancesWaiting + 1 } }
          w Phase.seeking)
  | seek (sys : Sys) (w : Nat) (ok : Bool) (e : EngState)
      (hp : sys.phases.get? w = some Phase.seeking)
      (ht : tryFormParty w sys.eng = some (ok, e)) :
      Step sys (Label.seek w)
        (setPhase { sys with eng := e } w
          (if ok then Phase.inDungeon else Phase.doneFail))
  | complete (sys : Sys) (w : Nat) (d : Int)
      (hp : sys.phases.get? w = some Phase.inDungeon)
      (hd1 : sys.eng.t1 ≤ d) (hd2 : d ≤ sys.eng.t2) :
      Step sys (Label.complete w)
        (setPhase { sys with eng := completeDungeon w d sys.eng }
          w Phase.doneRun)
  | decRun (sys : Sys) (w : Nat)
      (hp : sys.phases.get? w = some Phase.doneRun) :
      Step sys (Label.decWaiting w)
        (setPhase
          { sys with
            eng := { sys.eng with
                     instancesWaiting := sys.eng.instancesWaiting - 1 } }
          w Phase.top)
  | decFail (sys : Sys) (w : Nat)
      (hp : sys.phases.get? w = some Phase.doneFail) :
      Step sys (Label.decWaiting w)
        (setPhase
          { sys with
            eng := { sys.eng with
                     instancesWaiting := sys.eng.instancesWaiting - 1 } }
          w Phase.top)
  | submit (sys : Sys) (tanks healers dps : Int) :
      Step sys (Label.submit tanks healers dps)
        { sys with eng := addPlayers tanks healers dps sys.eng }
  | stopStep (sys : Sys) :
      Step sys Label.stopL { sys with eng := stop sys.eng }

/-- Finite interleavings: a run of the system recorded with its labels. -/
inductive Trace : Sys → List Label → Sys → Prop
  | refl (s : Sys) : Trace s [] s
  | step {s s' s'' : Sys} {l : Label} {ls : List Label} :
      Step s l s' → Trace s' ls s'' → Trace s (l :: ls) s''

/-- Invariant-folding over a trace. -/
lemma trace_invariant (P : Sys → Prop)
    (hstep : ∀ s l s', Step s l s' → P s → P s') :
    ∀ {s ls s'}, Trace s ls s' → P s → P s' := by
  intro s ls s' ht
  induction ht with
  | refl _ => exact fun h => h
  | step hs _ ih => exact fun h => ih (hstep _ _ _ hs h)

/-- Invariant-folding over a trace that contains no producer submissions. -/
lemma trace_invariant_nosubmit (P : Sys → Prop)
    (hstep : ∀ s l s', Step s l s' → labelIsSubmit l = false → P s → P s') :
    ∀ {s ls s'}, Trace s ls s' → (∀ l ∈ ls, labelIsSubmit l = false) →
      P s → P s' := by
  intro s ls s' ht
  induction ht with
  | refl _ => exact fun _ h => h
  | step hs _ ih =>
    intro hns h
    exact ih (fun l hl => hns l (List.mem_cons_of_mem _ hl))
      (hstep _ _ _ hs (hns _ (List.mem_cons_self _ _)) h)

/-! ### Conservation: `totalPartiesFormed` versus `Σ partiesServed` -/

/-- Sum of `partiesServed` over the instance table, as `displaySummary`
computes it. -/
def sumParties : List Instance → Nat
  | [] => 0
  | inst :: rest => inst.partiesServed + sumParties rest

/-- Modifying one in-range entry by a function that adds `c` to
`partiesServed` adds `c` to the sum. -/
lemma sumParties_modifyIdx (f : Instance → Instance) (c : Nat)
    (hf : ∀ x, (f x).partiesServed = x.partiesServed + c) :
    ∀ (l : List Instance) (i : Nat), i < l.length →
      sumParties (modifyIdx f l i) = sumParties l + c
  | x :: xs, 0, _ => by
    simp only [modifyIdx, sumParties, hf x]
    omega
  | x :: xs, n + 1, h => by
    have hn : n < xs.length := Nat.lt_of_succ_lt_succ (by simpa using h)
    simp only [modifyIdx, sumParties, sumParties_modifyIdx f c hf xs n hn]
    omega
  | [], _, h => by simp at h

/-- Modifying an entry by a function that keeps `partiesServed` keeps the
sum. -/
lemma sumParties_modifyIdx_keep (f : Instance → Instance)
    (hf : ∀ x, (f x).partiesServed = x.partiesServed) :
    ∀ (l : List Instance) (i : Nat),
      sumParties (modifyIdx f l i) = sumParties l
  | [], _ => rfl
  | x :: xs, 0 => by simp only [modifyIdx, sumParties, hf x]
  | x :: xs, n + 1 => by
    simp only [modifyIdx, sumParties, sumParties_modifyIdx_keep f hf xs n]

/-- A table whose entries all have `partiesServed = 0` sums to zero. -/
lemma sumParties_zero :
    ∀ (l : List Instance), (∀ inst ∈ l, inst.partiesServed = 0) →
      sumParties l = 0
  | [], _ => rfl
  | x :: xs, h => by
    simp only [sumParties, h x (by simp),
      sumParties_zero xs (fun i hi => h i (by simp [hi]))]

/-- Length of the constructed instance table. -/
lemma mkInstances_length (n : Nat) : (mkInstances n).length = n := by
  unfold mkInstances
  rw [List.length_map, List.length_range]

/-- Conservation invariant: worker count matches the instance table and the
global counter equals the per-instance sum. -/
def consInv (sys : Sys) : Prop :=
  sys.phases.length = sys.eng.instances.length ∧
  sys.eng.totalPartiesFormed = sumParties sys.eng.instances

/-- Every atomic action preserves the conservation invariant. -/
lemma consInv_step (s : Sys) (l : Label) (s' : Sys) (hst : Step s l s')
    (hP : consInv s) : consInv s' := by
  obtain ⟨hlen, hsum⟩ := hP
  cases hst with
  | loadTrue w hp hr =>
    exact ⟨by simp [setPhase, modifyIdx_length, hlen], hsum⟩
  | loadFalse w hp hr =>
    exact ⟨by simp [setPhase, modifyIdx_length, hlen], hsum⟩
  | incWaiting w hp =>
    exact ⟨by simp [setPhase, modifyIdx_length, hlen], hsum⟩
  | seek w ok e hp ht =>
    rcases tryFormParty_cases w s.eng with hf | ⟨hcf, hw, hr, hs2⟩
    · rw [hf] at ht
      simp only [Option.some.injEq, Prod.mk.injEq] at ht
      rw [← ht.2]
      exact ⟨by simp [setPhase, modifyIdx_length, hlen], hsum⟩
    · rw [hs2] at ht
      simp only [Option.some.injEq, Prod.mk.injEq] at ht
      rw [← ht.2]
      have hwlt : w < s.eng.instances.length :=
        hlen ▸ get?_some_lt _ _ _ hp
      constructor
      · simp [setPhase, modifyIdx_length, formParty, hlen]
      · simp only [setPhase, formParty]
        rw [sumParties_modifyIdx formUpdate 1 (fun x => rfl) _ w hwlt]
        simp [hsum]
  | complete w d hp hd1 hd2 =>
    constructor
    · simp [setPhase, modifyIdx_length, completeDungeon, hlen]
    · simp only [setPhase, completeDungeon]
      rw [sumParties_modifyIdx_keep
        (fun inst =>
          { inst with
            status := "empty"
            active := false
            totalTimeServed := inst.totalTimeServed + d })
        (fun x => rfl)]
      exact hsum
  | decRun w hp =>
    exact ⟨by simp [setPhase, modifyIdx_length, hlen], hsum⟩
  | decFail w hp =>
    exact ⟨by simp [setPhase, modifyIdx_length, hlen], hsum⟩
  | submit tanks healers dps =>
    exact ⟨by simp [addPlayers, hlen], hsum⟩
  | stopStep =>
    exact ⟨hlen, hsum⟩

/-- The conservation invariant holds in the freshly started system. -/
lemma consInv_init (n : Nat) (minTime maxTime : Int) :
    consInv (mkSys n minTime maxTime) := by
  constructor
  · simp [mkSys, mkLFG, mkInstances_length]
  · simp only [mkSys, mkLFG]
    rw [sumParties_zero]
    intro inst hi
    simp only [mkInstances, List.mem_map] at hi
    obtain ⟨i, _, hi⟩ := hi
    rw [← hi]

/-! ### Stocked-run invariant (exactly `k` groups' worth of actors) -/

/-- System state of a run whose queues were stocked with exactly `k` tanks,
`k` healers and `3 k` dps: the constructor followed by one `addPlayers`
call, all workers at the loop head. -/
def initSys (n : Nat) (minTime maxTime : Int) (k : Nat) : Sys :=
  { eng := addPlayers (k : Int) (k : Int) ((3 * k : Nat) : Int)
      (mkLFG n minTime maxTime),
    phases := List.replicate n Phase.top }

/-- Balance invariant of a stocked run: the queues always hold exactly the
unconsumed remainder of the initial stock, one tank + one healer + three dps
per formed group. -/
def stockInv (k : Nat) (e : EngState) : Prop :=
  e.totalPartiesFormed ≤ k ∧
  e.tankQueue.length = k - e.totalPartiesFormed ∧
  e.healerQueue.length = k - e.totalPartiesFormed ∧
  e.dpsQueue.length = 3 * (k - e.totalPartiesFormed)

/-- Every atomic action except a producer submission preserves the balance
invariant. -/
lemma stockInv_step (k : Nat) (s : Sys) (l : Label) (s' : Sys)
    (hst : Step s l s') (hns : labelIsSubmit l = false)
    (hP : stockInv k s.eng) : stockInv k s'.eng := by
  obtain ⟨hle, hT, hH, hD⟩ := hP
  cases hst with
  | loadTrue w hp hr => exact ⟨hle, hT, hH, hD⟩
  | loadFalse w hp hr => exact ⟨hle, hT, hH, hD⟩
  | incWaiting w hp => exact ⟨hle, hT, hH, hD⟩
  | seek w ok e hp ht =>
    rcases tryFormParty_cases w s.eng with hf | ⟨hcf, hw, hr, hs2⟩
    · rw [hf] at ht
      simp only [Option.some.injEq, Prod.mk.injEq] at ht
      rw [← ht.2]
      exact ⟨hle, hT, hH, hD⟩
    · rw [hs2] at ht
      simp only [Option.some.injEq, Prod.mk.injEq] at ht
      rw [← ht.2]
      obtain ⟨h1, h2, h3⟩ := (canForm_iff s.eng).mp hcf
      refine ⟨?_, ?_, ?_, ?_⟩ <;>
        simp only [setPhase, formParty, List.length_tail] <;>
        omega
  | complete w d hp hd1 hd2 => exact ⟨hle, hT, hH, hD⟩
  | decRun w hp => exact ⟨hle, hT, hH, hD⟩
  | decFail w hp => exact ⟨hle, hT, hH, hD⟩
  | submit tanks healers dps => simp [labelIsSubmit] at hns
  | stopStep => exact ⟨hle, hT, hH, hD⟩

/-- The balance invariant holds right after stocking the queues. -/
lemma stockInv_init (n : Nat) (minTime maxTime : Int) (k : Nat) :
    stockInv k (initSys n minTime maxTime k).eng := by
  refine ⟨Nat.zero_le _, ?_, ?_, ?_⟩ <;>
    simp [initSys, addPlayers, mkLFG] <;> omega

/-! ### The `instancesWaiting` counter versus worker phases -/

/-- Phases between the `instancesWaiting++` at the top of the loop body and
the `instancesWaiting--` at its end.  Note this includes `inDungeon`,
`doneRun` and `doneFail`: the worker still counts while it runs the dungeon
and sleeps, not only while it polls. -/
def inBody : Phase → Bool
  | Phase.top => false
  | Phase.preInc => false
  | Phase.seeking => true
  | Phase.inDungeon => true
  | Phase.doneRun => true
  | Phase.doneFail => true
  | Phase.exited => false

/-- Workers whose phase lies inside the loop body. -/
def inBodyCount (ps : List Phase) : Nat := (ps.filter inBody).length

/-- Workers currently inside `tryFormParty`, i.e. actually polling for a
group. -/
def pollingCount (ps : List Phase) : Nat :=
  (ps.filter (fun p => p == Phase.seeking)).length

/-- Unfold `inBodyCount` over a cons. -/
lemma inBodyCount_cons (x : Phase) (xs : List Phase) :
    inBodyCount (x :: xs) = (if inBody x then 1 else 0) + inBodyCount xs := by
  cases hx : inBody x <;> simp [inBodyCount, List.filter_cons, hx] <;> omega

/-- Effect of overwriting one phase on the body count. -/
lemma inBodyCount_modifyIdx (q : Phase) :
    ∀ (ps : List Phase) (w : Nat) (p : Phase), ps.get? w = some p →
      inBodyCount (modifyIdx (fun _ => q) ps w) +
          (if inBody p then 1 else 0) =
        inBodyCount ps + (if inBody q then 1 else 0)
  | x :: xs, 0, p, h => by
    simp only [List.get?, Option.some.injEq] at h
    subst h
    simp only [modifyIdx, inBodyCount_cons]
    omega
  | x :: xs, w + 1, p, h => by
    simp only [modifyIdx, inBodyCount_cons]
    have := inBodyCount_modifyIdx q xs w p h
    omega
  | [], _, _, h => by simp [List.get?] at h

/-- All-`top` phase lists count zero workers in the body. -/
lemma inBodyCount_replicate_top :
    ∀ n : Nat, inBodyCount (List.replicate n Phase.top) = 0
  | 0 => rfl
  | n + 1 => by
    simp [List.replicate, inBodyCount_cons, inBodyCount_replicate_top n,
      inBody]

/-- The body count is bounded by the worker count. -/
lemma inBodyCount_le (ps : List Phase) : inBodyCount ps ≤ ps.length :=
  List.length_filter_le _ _

/-- Counter invariant: `instancesWaiting` equals the number of workers in
the loop body, and the phase list keeps its length. -/
def waitInv (n : Nat) (sys : Sys) : Prop :=
  sys.phases.length = n ∧
  sys.eng.instancesWaiting = (inBodyCount sys.phases : Int)

/-- Every atomic action preserves the counter invariant. -/
lemma waitInv_step (n : Nat) (s : Sys) (l : Label) (s' : Sys)
    (hst : Step s l s') (hP : waitInv n s) : waitInv n s' := by
  obtain ⟨hlen, hw⟩ := hP
  cases hst with
  | loadTrue w hp hr =>
    refine ⟨by simp [setPhase, modifyIdx_length, hlen], ?_⟩
    have hc := inBodyCount_modifyIdx Phase.preInc _ _ _ hp
    simp [inBody] at hc
    simp only [setPhase]
    rw [hw]
    omega
  | loadFalse w hp hr =>
    refine ⟨by simp [setPhase, modifyIdx_length, hlen], ?_⟩
    have hc := inBodyCount_modifyIdx Phase.exited _ _ _ hp
    simp [inBody] at hc
    simp only [setPhase]
    rw [hw]
    omega
  | incWaiting w hp =>
    refine ⟨by simp [setPhase, modifyIdx_length, hlen], ?_⟩
    have hc := inBodyCount_modifyIdx Phase.seeking _ _ _ hp
    simp [inBody] at hc
    simp only [setPhase]
    rw [hw]
    omega
  | seek w ok e hp ht =>
    have hewait : e.instancesWaiting = s.eng.instancesWaiting := by
      rcases tryFormParty_cases w s.eng with hf | ⟨_, _, _, hs2⟩
      · rw [hf] at ht
        simp only [Option.some.injEq, Prod.mk.injEq] at ht
        rw [← ht.2]
      · rw [hs2] at ht
        simp only [Option.some.injEq, Prod.mk.injEq] at ht
        rw [← ht.2]
        rfl
    refine ⟨by simp [setPhase, modifyIdx_length, hlen], ?_⟩
    cases ok with
    | false =>
      have hc := inBodyCount_modifyIdx Phase.doneFail _ _ _ hp
      simp [inBody] at hc
      simp only [setPhase, Bool.false_eq_true, if_false]
      rw [hewait, hw]
      omega
    | true =>
      have hc := inBodyCount_modifyIdx Phase.inDungeon _ _ _ hp
      simp [inBody] at hc
      simp only [setPhase, if_true]
      rw [hewait, hw]
      omega
  | complete w d hp hd1 hd2 =>
    refine ⟨by simp [setPhase, modifyIdx_length, hlen], ?_⟩
    have hc := inBodyCount_modifyIdx Phase.doneRun _ _ _ hp
    simp [inBody] at hc
    simp only [setPhase, completeDungeon]
    rw [hw]
    omega
  | decRun w hp =>
    refine ⟨by simp [setPhase, modifyIdx_length, hlen], ?_⟩
    have hc := inBodyCount_modifyIdx Phase.top _ _ _ hp
    simp [inBody] at hc
    simp only [setPhase]
    rw [hw]
    omega
  | decFail w hp =>
    refine ⟨by simp [setPhase, modifyIdx_length, hlen], ?_⟩
    have hc := inBodyCount_modifyIdx Phase.top _ _ _ hp
    simp [inBody] at hc
    simp only [setPhase]
    rw [hw]
    omega
  | submit tanks healers dps =>
    exact ⟨hlen, hw⟩
  | stopStep =>
    exact ⟨hlen, hw⟩

/-- The counter invariant holds in the freshly started system. -/
lemma waitInv_init (n : Nat) (minTime maxTime : Int) :
    waitInv n (mkSys n minTime maxTime) := by
  refine ⟨by simp [mkSys], ?_⟩
  simp [mkSys, mkLFG, inBodyCount_replicate_top]

/-! ### Claim C5 helper and concrete example states -/

/-- Failure of `tryFormParty` leaves the engine state exactly unchanged. -/
lemma tryFormParty_false_unchanged (w : Nat) (s e : EngState)
    (h : tryFormParty w s = some (false, e)) : e = s := by
  rcases tryFormParty_cases w s with hf | ⟨_, _, _, hs⟩
  · rw [hf] at h
    simp only [Option.some.injEq, Prod.mk.injEq] at h
    exact h.2.symm
  · rw [hs] at h
    simp at h

/-- Concrete running engine stocked with exactly one group's worth of actors
and one seeking worker. -/
def engStocked : EngState :=
  { tankQueue := [1], healerQueue := [1], dpsQueue := [1, 1, 1],
    instances := [{ id := 1, status := "empty", partiesServed := 0,
                    totalTimeServed := 0, active := false }],
    totalPartiesFormed := 0, running := true, instancesWaiting := 1,
    t1 := 0, t2 := 0 }

/-- The same stocked engine after `stop` was observed. -/
def engStopped : EngState := { engStocked with running := false }

/-- Two-instance engine used to exercise the completion frame condition. -/
def instA : Instance :=
  { id := 1, status := "active", partiesServed := 2, totalTimeServed := 7,
    active := true }

/-- Second instance record of the two-instance engine. -/
def instB : Instance :=
  { id := 2, status := "empty", partiesServed := 1, totalTimeServed := 3,
    active := false }

/-- Engine holding `instA` and `instB`. -/
def c8s : EngState := { engStocked with instances := [instA, instB] }

/-! ### Claims about the pure operations -/

/-- C3: the group-admission predicate `canFormParty` returns `true` iff the
tank queue size is at least 1, the healer queue size is at least 1, and the
damage queue size is at least 3.  It is a pure read of the three current
queue sizes: it is a `Bool`-valued function of the state (so it mutates
nothing), and its value depends only on the three sizes. -/
theorem c3_canFormParty_pure_iff (s : EngState) :
    (canFormParty s = true ↔
      1 ≤ s.tankQueue.length ∧ 1 ≤ s.healerQueue.length ∧
        3 ≤ s.dpsQueue.length) ∧
    (∀ s' : EngState, s'.tankQueue.length = s.tankQueue.length →
      s'.healerQueue.length = s.healerQueue.length →
      s'.dpsQueue.length = s.dpsQueue.length →
      canFormParty s' = canFormParty s) := by
  refine ⟨canForm_iff s, ?_⟩
  intro s' h1 h2 h3
  unfold canFormParty
  rw [h1, h2, h3]

/-- Witness for C3 at two concrete states with equal queue sizes. -/
theorem c3_witness : canFormParty engStocked = canFormParty engStopped :=
  (c3_canFormParty_pure_iff engStopped).2 engStocked rfl rfl rfl

/-- C4: a pop on a role queue is only executed when the queue is non-empty.
The pops of `tryFormParty` run under the same lock acquisition in which
`canFormParty` was confirmed (the single atomic critical section embodied by
`tryFormParty`), so the fallible `dequeueOne`-based body never reaches the
empty-pop (`none`) branch, and a successful formation indeed had all three
availability bounds; queue sizes are `Nat`s obtained as list lengths, so no
reachable state has a negative size. -/
theorem c4_no_empty_pop :
    (∀ (w : Nat) (s : EngState), (tryFormParty w s).isSome = true) ∧
    (∀ (w : Nat) (s e : EngState), tryFormParty w s = some (true, e) →
      canFormParty s = true ∧ 1 ≤ s.tankQueue.length ∧
        1 ≤ s.healerQueue.length ∧ 3 ≤ s.dpsQueue.length) := by
  constructor
  · intro w s
    rcases tryFormParty_cases w s with hf | ⟨_, _, _, hs⟩
    · rw [hf]
      rfl
    · rw [hs]
      rfl
  · intro w s e ht
    rcases tryFormParty_cases w s with hf | ⟨hcf, _, _, hs⟩
    · rw [hf] at ht
      simp at ht
    · obtain ⟨h1, h2, h3⟩ := (canForm_iff s).mp hcf
      exact ⟨hcf, h1, h2, h3⟩

/-- Witness for C4: a concrete successful formation from `engStocked`. -/
theorem c4_witness :
    canFormParty engStocked = true ∧ 1 ≤ engStocked.tankQueue.length ∧
      1 ≤ engStocked.healerQueue.length ∧
      3 ≤ engStocked.dpsQueue.length :=
  c4_no_empty_pop.2 0 engStocked (formParty 0 engStocked) rfl

/-- C5: whenever `tryFormParty` fails — the bounded wait timed out, the wake
condition did not hold, or the running flag was observed `false` — it
returns `false` and the engine state it leaves behind is exactly the state
it saw: queues, instance table, counters and flag all unchanged, so no
half-formed group is observable. -/
theorem c5_fail_leaves_state_unchanged (w : Nat) (s e : EngState)
    (h : tryFormParty w s = some (false, e)) : e = s :=
  tryFormParty_false_unchanged w s e h

/-- Witness for C5: a stocked engine whose running flag is down fails and is
returned unchanged. -/
theorem c5_witness : engStopped = engStopped :=
  c5_fail_leaves_state_unchanged 0 engStopped engStopped rfl

/-- C8: the completion critical section of `runDungeon` sets exactly the
given instance back to status "empty"/inactive, adds the elapsed duration to
that instance's `totalTimeServed`, and changes nothing else: every other
instance, the three role queues, `totalPartiesFormed`, the running flag, the
waiting counter, and the instance's own `partiesServed` are untouched. -/
theorem c8_completion_frame (s : EngState) (i : Nat) (d : Int)
    (inst : Instance) (h : s.instances.get? i = some inst) :
    (completeDungeon i d s).instances.get? i =
      some { inst with
             status := "empty"
             active := false
             totalTimeServed := inst.totalTimeServed + d } ∧
    (∀ j, j ≠ i → (completeDungeon i d s).instances.get? j =
      s.instances.get? j) ∧
    (completeDungeon i d s).tankQueue = s.tankQueue ∧
    (completeDungeon i d s).healerQueue = s.healerQueue ∧
    (completeDungeon i d s).dpsQueue = s.dpsQueue ∧
    (completeDungeon i d s).totalPartiesFormed = s.totalPartiesFormed ∧
    (completeDungeon i d s).running = s.running ∧
    (completeDungeon i d s).instancesWaiting = s.instancesWaiting ∧
    ({ inst with
       status := "empty"
       active := false
       totalTimeServed := inst.totalTimeServed + d } :
        Instance).partiesServed = inst.partiesServed := by
  refine ⟨?_, ?_, rfl, rfl, rfl, rfl, rfl, rfl, rfl⟩
  · exact modifyIdx_get?_self _ _ _ _ h
  · intro j hj
    exact modifyIdx_get?_ne _ _ _ _ (fun hh => hj hh.symm)

/-- Witness for C8 on the concrete two-instance engine. -/
theorem c8_witness :
    (completeDungeon 0 5 c8s).instances.get? 0 =
      some { instA with
             status := "empty"
             active := false
             totalTimeServed := instA.totalTimeServed + 5 } ∧
    (completeDungeon 0 5 c8s).instances.get? 1 = c8s.instances.get? 1 :=
  ⟨(c8_completion_frame c8s 0 5 instA rfl).1,
   (c8_completion_frame c8s 0 5 instA rfl).2.1 1 (by decide)⟩

/-- C9: `main` rejects every input with a non-positive instance count, a
negative actor count, a negative minimum duration, or an inverted duration
range, exiting with failure before the engine is constructed (the `none`
branch); on every accepted input the only value changed is the maximum
duration bound, capped at 15. -/
theorem c9_input_validation (n t h d t1 t2 : Int) :
    (validateAndClamp n t h d t1 t2 = none ↔
      (n ≤ 0 ∨ t < 0 ∨ h < 0 ∨ d < 0 ∨ t1 < 0 ∨ t2 < t1)) ∧
    (∀ c : Config, validateAndClamp n t h d t1 t2 = some c →
      c.n = n ∧ c.t = t ∧ c.h = h ∧ c.d = d ∧ c.t1 = t1 ∧
        c.t2 = min t2 15) := by
  by_cases hbad : n ≤ 0 ∨ t < 0 ∨ h < 0 ∨ d < 0 ∨ t1 < 0 ∨ t2 < t1
  · constructor
    · simp [validateAndClamp, hbad]
    · intro c hc
      simp [validateAndClamp, hbad] at hc
  · refine ⟨?_, ?_⟩
    · constructor
      · intro hnone
        rw [validateAndClamp, if_neg hbad] at hnone
        by_cases h15 : t2 > 15 <;> simp [h15] at hnone
      · intro hb
        exact absurd hb hbad
    intro c hc
    by_cases h15 : t2 > 15
    · have hv : validateAndClamp n t h d t1 t2 =
          some { n := n, t := t, h := h, d := d, t1 := t1, t2 := 15 } := by
        simp [validateAndClamp, hbad, h15]
      rw [hv] at hc
      simp only [Option.some.injEq] at hc
      subst hc
      refine ⟨rfl, rfl, rfl, rfl, rfl, ?_⟩
      show (15 : Int) = min t2 15
      omega
    · have hv : validateAndClamp n t h d t1 t2 =
          some { n := n, t := t, h := h, d := d, t1 := t1, t2 := t2 } := by
        simp [validateAndClamp, hbad, h15]
      rw [hv] at hc
      simp only [Option.some.injEq] at hc
      subst hc
      refine ⟨rfl, rfl, rfl, rfl, rfl, ?_⟩
      show t2 = min t2 15
      omega

/-- Witness for C9: input 2/1/1/3 with range 1..20 is accepted and only the
maximum bound is clamped, to 15. -/
theorem c9_witness :
    (⟨2, 1, 1, 3, 1, 15⟩ : Config).n = 2 ∧
    (⟨2, 1, 1, 3, 1, 15⟩ : Config).t = 1 ∧
    (⟨2, 1, 1, 3, 1, 15⟩ : Config).h = 1 ∧
    (⟨2, 1, 1, 3, 1, 15⟩ : Config).d = 3 ∧
    (⟨2, 1, 1, 3, 1, 15⟩ : Config).t1 = 1 ∧
    (⟨2, 1, 1, 3, 1, 15⟩ : Config).t2 = min 20 15 :=
  (c9_input_validation 2 1 1 3 1 20).2 ⟨2, 1, 1, 3, 1, 15⟩ (by decide)

/-- C10: `stop` is idempotent.  A second call — in particular the one the
destructor always makes — changes nothing: on an already stopped state it is
the identity, and in general it touches only the running flag, leaving
queues, instance metrics and counters as they were. -/
theorem c10_stop_idempotent :
    (∀ s : EngState, stop (stop s) = stop s) ∧
    (∀ s : EngState, s.running = false → stop s = s) ∧
    (∀ s : EngState, (stop s).running = false ∧
      (stop s).tankQueue = s.tankQueue ∧
      (stop s).healerQueue = s.healerQueue ∧
      (stop s).dpsQueue = s.dpsQueue ∧
      (stop s).instances = s.instances ∧
      (stop s).totalPartiesFormed = s.totalPartiesFormed ∧
      (stop s).instancesWaiting = s.instancesWaiting) :=
  ⟨fun _ => rfl, stop_of_not_running,
   fun _ => ⟨rfl, rfl, rfl, rfl, rfl, rfl, rfl⟩⟩

/-- Witness for C10: `stop` on the concrete stopped engine is the
identity. -/
theorem c10_witness : stop engStopped = engStopped :=
  c10_stop_idempotent.2.1 engStopped rfl

/-! ### Claims about whole runs -/

/-- C1: a successful formation removes exactly 1 tank, 1 healer and 3 damage
tokens (one atomic critical section), a failed attempt removes none, and in
any interleaving of a run whose queues were stocked with exactly `k` tanks,
`k` healers and `3 k` damage and in which nothing more is submitted, at most
`k` groups ever form, and exactly `k` have formed in any state where no
further group can be cut (the drained condition `waitForCompletion` waits
for), regardless of worker count or step order. -/
theorem c1_atomic_extraction :
    (∀ (w : Nat) (s e : EngState), tryFormParty w s = some (true, e) →
      e.tankQueue.length + 1 = s.tankQueue.length ∧
      e.healerQueue.length + 1 = s.healerQueue.length ∧
      e.dpsQueue.length + 3 = s.dpsQueue.length ∧
      e.totalPartiesFormed = s.totalPartiesFormed + 1) ∧
    (∀ (w : Nat) (s e : EngState), tryFormParty w s = some (false, e) →
      e = s) ∧
    (∀ (n : Nat) (minTime maxTime : Int) (k : Nat) (ls : List Label)
        (s : Sys), Trace (initSys n minTime maxTime k) ls s →
      (∀ l ∈ ls, labelIsSubmit l = false) →
      s.eng.totalPartiesFormed ≤ k ∧
      (canFormParty s.eng = false → s.eng.totalPartiesFormed = k)) := by
  refine ⟨?_, ?_, ?_⟩
  · intro w s e ht
    rcases tryFormParty_cases w s with hf | ⟨hcf, _, _, hs⟩
    · rw [hf] at ht
      simp at ht
    · rw [hs] at ht
      simp only [Option.some.injEq, Prod.mk.injEq, true_and] at ht
      obtain ⟨h1, h2, h3⟩ := (canForm_iff s).mp hcf
      rw [← ht]
      refine ⟨?_, ?_, ?_, rfl⟩ <;>
        simp only [formParty, List.length_tail] <;> omega
  · intro w s e ht
    exact tryFormParty_false_unchanged w s e ht
  · intro n minTime maxTime k ls s htr hns
    have hinv : stockInv k s.eng :=
      trace_invariant_nosubmit (fun sys => stockInv k sys.eng)
        (fun a l b hst hl hp => stockInv_step k a l b hst hl hp)
        htr hns (stockInv_init n minTime maxTime k)
    obtain ⟨hle, hT, hH, hD⟩ := hinv
    refine ⟨hle, ?_⟩
    intro hc
    have hnc : ¬(1 ≤ s.eng.tankQueue.length ∧
        1 ≤ s.eng.healerQueue.length ∧ 3 ≤ s.eng.dpsQueue.length) := by
      rw [← canForm_iff]
      simp [hc]
    omega

/-- Final state of the concrete one-worker stocked run: the single group has
been formed and the worker is in the dungeon. -/
def c1final : Sys :=
  { eng := { tankQueue := [], healerQueue := [], dpsQueue := [],
             instances := [{ id := 1, status := "active", partiesServed := 1,
                             totalTimeServed := 0, active := true }],
             totalPartiesFormed := 1, running := true, instancesWaiting := 1,
             t1 := 0, t2 := 0 },
    phases := [Phase.inDungeon] }

/-- First intermediate state of the concrete stocked run. -/
def c1s1 : Sys := setPhase (initSys 1 0 0 1) 0 Phase.preInc

/-- Second intermediate state of the concrete stocked run. -/
def c1s2 : Sys :=
  setPhase
    { c1s1 with
      eng := { c1s1.eng with
               instancesWaiting := c1s1.eng.instancesWaiting + 1 } }
    0 Phase.seeking

/-- Concrete run: one worker, queues stocked for one group, the worker loads
the flag, registers as waiting and forms the group. -/
lemma c1trace :
    Trace (initSys 1 0 0 1)
      [Label.loadRun 0, Label.incWaiting 0, Label.seek 0] c1final := by
  have h1 : Step (initSys 1 0 0 1) (Label.loadRun 0) c1s1 :=
    Step.loadTrue (initSys 1 0 0 1) 0 rfl rfl
  have h2 : Step c1s1 (Label.incWaiting 0) c1s2 :=
    Step.incWaiting c1s1 0 rfl
  have h3 : Step c1s2 (Label.seek 0) c1final :=
    Step.seek c1s2 0 true c1final.eng rfl rfl
  exact Trace.step h1 (Trace.step h2 (Trace.step h3 (Trace.refl c1final)))

/-- Witness for C1: in the concrete drained one-group run exactly one group
formed. -/
theorem c1_witness :
    c1final.eng.totalPartiesFormed ≤ 1 ∧
      (canFormParty c1final.eng = false →
        c1final.eng.totalPartiesFormed = 1) :=
  c1_atomic_extraction.2.2 1 0 0 1 _ c1final c1trace (by decide)

/-- C2: in every reachable state (each state of a trace sits between atomic
critical sections, i.e. is a consistent observation point),
`totalPartiesFormed` equals the sum over all instances of `partiesServed`,
the sum `displaySummary` computes. -/
theorem c2_conservation (n : Nat) (minTime maxTime : Int) (ls : List Label)
    (s : Sys) (h : Trace (mkSys n minTime maxTime) ls s) :
    s.eng.totalPartiesFormed = sumParties s.eng.instances :=
  (trace_invariant consInv consInv_step h (consInv_init n minTime maxTime)).2

/-- Final state of the concrete run used by the C2 witness and the C6
counterexample: one worker formed a party and is now inside the dungeon,
with `instancesWaiting` still 1. -/
def cexFinal : Sys :=
  { eng := { tankQueue := [], healerQueue := [], dpsQueue := [],
             instances := [{ id := 1, status := "active", partiesServed := 1,
                             totalTimeServed := 0, active := true }],
             totalPartiesFormed := 1, running := true, instancesWaiting := 1,
             t1 := 0, t2 := 0 },
    phases := [Phase.inDungeon] }

/-- State of the C2/C6 run after the producer submission. -/
def cs1 : Sys :=
  { mkSys 1 0 0 with eng := addPlayers 1 1 3 (mkSys 1 0 0).eng }

/-- State of the C2/C6 run after the worker loads the running flag. -/
def cs2 : Sys := setPhase cs1 0 Phase.preInc

/-- State of the C2/C6 run after the worker registers as waiting. -/
def cs3 : Sys :=
  setPhase
    { cs2 with
      eng := { cs2.eng with
               instancesWaiting := cs2.eng.instancesWaiting + 1 } }
    0 Phase.seeking

/-- Concrete run from the freshly started one-worker system: the producer
submits 1 tank, 1 healer, 3 dps, then the worker forms the party and enters
the dungeon. -/
lemma cexTrace :
    Trace (mkSys 1 0 0)
      [Label.submit 1 1 3, Label.loadRun 0, Label.incWaiting 0,
        Label.seek 0] cexFinal := by
  have h0 : Step (mkSys 1 0 0) (Label.submit 1 1 3) cs1 :=
    Step.submit (mkSys 1 0 0) 1 1 3
  have h1 : Step cs1 (Label.loadRun 0) cs2 :=
    Step.loadTrue cs1 0 rfl rfl
  have h2 : Step cs2 (Label.incWaiting 0) cs3 :=
    Step.incWaiting cs2 0 rfl
  have h3 : Step cs3 (Label.seek 0) cexFinal :=
    Step.seek cs3 0 true cexFinal.eng rfl rfl
  exact Trace.step h0
    (Trace.step h1 (Trace.step h2 (Trace.step h3 (Trace.refl cexFinal))))

/-- Witness for C2 at the end of the concrete run: 1 formed party equals the
per-instance sum. -/
theorem c2_witness :
    cexFinal.eng.totalPartiesFormed = sumParties cexFinal.eng.instances :=
  c2_conservation 1 0 0 _ cexFinal cexTrace

/-- C6 counterexample: in a reachable state of a one-worker run the worker
has already formed its party and is running the dungeon (phase
`inDungeon`), yet `instancesWaiting` is still 1 while the number of workers
currently polling for a group is 0 — the counter is not undone when the
attempt ends, and does not equal the number of polling workers. -/
theorem c6_counterexample :
    Trace (mkSys 1 0 0)
      [Label.submit 1 1 3, Label.loadRun 0, Label.incWaiting 0,
        Label.seek 0] cexFinal ∧
    cexFinal.phases.get? 0 = some Phase.inDungeon ∧
    cexFinal.eng.instancesWaiting = 1 ∧
    pollingCount cexFinal.phases = 0 ∧
    cexFinal.eng.instancesWaiting ≠ (pollingCount cexFinal.phases : Int) :=
  ⟨cexTrace, by decide, by decide, by decide, by decide⟩

/-- C6 (amended): `instancesWaiting` always lies in `0..N` and equals the
number of workers currently inside a loop-body iteration — from the
`instancesWaiting++` at the top of the body to the `instancesWaiting--` at
its end — which includes the time spent running the simulated dungeon and
the post-attempt sleep, not only the time spent polling. -/
theorem c6_amended_waiting_in_body (n : Nat) (minTime maxTime : Int)
    (ls : List Label) (s : Sys)
    (h : Trace (mkSys n minTime maxTime) ls s) :
    s.eng.instancesWaiting = (inBodyCount s.phases : Int) ∧
    0 ≤ s.eng.instancesWaiting ∧ s.eng.instancesWaiting ≤ (n : Int) := by
  obtain ⟨hlen, hwq⟩ :=
    trace_invariant (waitInv n) (waitInv_step n) h
      (waitInv_init n minTime maxTime)
  refine ⟨hwq, ?_, ?_⟩
  · rw [hwq]
    exact Int.natCast_nonneg _
  · rw [hwq]
    have hb := inBodyCount_le s.phases
    rw [hlen] at hb
    exact_mod_cast hb

/-- Witness for the amended C6 at the end of the concrete run. -/
theorem c6_amended_witness :
    cexFinal.eng.instancesWaiting = (inBodyCount cexFinal.phases : Int) ∧
    0 ≤ cexFinal.eng.instancesWaiting ∧
    cexFinal.eng.instancesWaiting ≤ ((1 : Nat) : Int) :=
  c6_amended_waiting_in_body 1 0 0 _ cexFinal cexTrace

/-! ### Claim C7: the running flag and worker termination -/

/-- Overwriting a phase is observable at that index. -/
lemma setPhase_get_self (sys : Sys) (w : Nat) (q : Phase) (x : Phase)
    (h : sys.phases.get? w = some x) :
    (setPhase sys w q).phases.get? w = some q :=
  modifyIdx_get?_self (fun _ => q) sys.phases w x h

/-- Effect of one atomic action on the running flag: either unchanged, or
the action is `stop` and the flag is `false` afterwards. -/
lemma step_running_cases (s : Sys) (l : Label) (s' : Sys)
    (hst : Step s l s') :
    s'.eng.running = s.eng.running ∨
      (l = Label.stopL ∧ s'.eng.running = false) := by
  cases hst with
  | loadTrue w hp hr => exact Or.inl rfl
  | loadFalse w hp hr => exact Or.inl rfl
  | incWaiting w hp => exact Or.inl rfl
  | seek w ok e hp ht =>
    rcases tryFormParty_cases w s.eng with hf | ⟨_, _, _, hs2⟩
    · rw [hf] at ht
      simp only [Option.some.injEq, Prod.mk.injEq] at ht
      rw [← ht.2]
      exact Or.inl rfl
    · rw [hs2] at ht
      simp only [Option.some.injEq, Prod.mk.injEq] at ht
      rw [← ht.2]
      exact Or.inl rfl
  | complete w d hp hd1 hd2 => exact Or.inl rfl
  | decRun w hp => exact Or.inl rfl
  | decFail w hp => exact Or.inl rfl
  | submit tanks healers dps => exact Or.inl rfl
  | stopStep => exact Or.inr ⟨rfl, rfl⟩

/-- Distance of a worker phase from loop exit once the flag is down. -/
def phaseMeasure : Phase → Nat
  | Phase.exited => 0
  | Phase.top => 1
  | Phase.doneRun => 2
  | Phase.doneFail => 2
  | Phase.seeking => 3
  | Phase.inDungeon => 3
  | Phase.preInc => 4

/-- C7: the running flag starts `true`; the only action that ever changes it
is `stop`, which sets it `false`; once `false` it never returns to `true`;
and after `stop`, every worker that has not exited always has an enabled own
action, every own action strictly decreases its distance-to-exit measure
(during a seek the success path is disabled, so the attempt fails and falls
through to the decrement and the loop-head check), and no other action moves
its program counter — hence every worker loop eventually observes `false`
and exits. -/
theorem c7_running_one_way :
    (∀ (n : Nat) (minTime maxTime : Int),
      (mkSys n minTime maxTime).eng.running = true) ∧
    (∀ (s : Sys) (l : Label) (s' : Sys), Step s l s' →
      s'.eng.running = s.eng.running ∨
        (l = Label.stopL ∧ s'.eng.running = false)) ∧
    (∀ (s : Sys) (l : Label) (s' : Sys), Step s l s' →
      s.eng.running = false → s'.eng.running = false) ∧
    (∀ (s : Sys) (l : Label) (s' : Sys) (w : Nat) (p p' : Phase),
      Step s l s' → s.eng.running = false → labelWorker l = some w →
      s.phases.get? w = some p → s'.phases.get? w = some p' →
      phaseMeasure p' < phaseMeasure p) ∧
    (∀ (s : Sys) (l : Label) (s' : Sys) (w : Nat), Step s l s' →
      labelWorker l ≠ some w → s'.phases.get? w = s.phases.get? w) ∧
    (∀ (s : Sys) (w : Nat) (p : Phase), s.eng.running = false →
      s.eng.t1 ≤ s.eng.t2 → s.phases.get? w = some p → p ≠ Phase.exited →
      ∃ (l : Label) (s' : Sys) (p' : Phase), Step s l s' ∧
        labelWorker l = some w ∧ s'.phases.get? w = some p' ∧
        phaseMeasure p' < phaseMeasure p) := by
  refine ⟨fun _ _ _ => rfl, step_running_cases, ?_, ?_, ?_, ?_⟩
  · intro s l s' hst hr
    rcases step_running_cases s l s' hst with h | h
    · rw [h, hr]
    · exact h.2
  · intro s l s' w p p' hst hr hwl hp hp'
    cases hst with
    | loadTrue w0 hp0 hr0 =>
      rw [hr] at hr0
      simp at hr0
    | loadFalse w0 hp0 hr0 =>
      simp only [labelWorker, Option.some.injEq] at hwl
      subst hwl
      rw [hp0] at hp
      simp only [Option.some.injEq] at hp
      subst hp
      have hq := setPhase_get_self s w0 Phase.exited Phase.top hp0
      rw [hq] at hp'
      simp only [Option.some.injEq] at hp'
      subst hp'
      decide
    | incWaiting w0 hp0 =>
      simp only [labelWorker, Option.some.injEq] at hwl
      subst hwl
      rw [hp0] at hp
      simp only [Option.some.injEq] at hp
      subst hp
      have hq := setPhase_get_self
        { s with
          eng := { s.eng with
                   instancesWaiting := s.eng.instancesWaiting + 1 } }
        w0 Phase.seeking Phase.preInc hp0
      rw [hq] at hp'
      simp only [Option.some.injEq] at hp'
      subst hp'
      decide
    | seek w0 ok e hp0 ht =>
      simp only [labelWorker, Option.some.injEq] at hwl
      subst hwl
      rw [hp0] at hp
      simp only [Option.some.injEq] at hp
      subst hp
      have hfail : tryFormParty w0 s.eng = some (false, s.eng) := by
        apply tryFormParty_fail
        rintro ⟨-, -, hrt⟩
        rw [hr] at hrt
        simp at hrt
      rw [hfail] at ht
      simp only [Option.some.injEq, Prod.mk.injEq] at ht
      obtain ⟨hok, he⟩ := ht
      subst hok
      have hq := setPhase_get_self { s with eng := e } w0
        (if false then Phase.inDungeon else Phase.doneFail)
        Phase.seeking hp0
      rw [hq] at hp'
      simp only [Option.some.injEq] at hp'
      subst hp'
      decide
    | complete w0 d hp0 hd1 hd2 =>
      simp only [labelWorker, Option.some.injEq] at hwl
      subst hwl
      rw [hp0] at hp
      simp only [Option.some.injEq] at hp
      subst hp
      have hq := setPhase_get_self { s with eng := completeDungeon w0 d s.eng }
        w0 Phase.doneRun Phase.inDungeon hp0
      rw [hq] at hp'
      simp only [Option.some.injEq] at hp'
      subst hp'
      decide
    | decRun w0 hp0 =>
      simp only [labelWorker, Option.some.injEq] at hwl
      subst hwl
      rw [hp0] at hp
      simp only [Option.some.injEq] at hp
      subst hp
      have hq := setPhase_get_self
        { s with
          eng := { s.eng with
                   instancesWaiting := s.eng.instancesWaiting - 1 } }
        w0 Phase.top Phase.doneRun hp0
      rw [hq] at hp'
      simp only [Option.some.injEq] at hp'
      subst hp'
      decide
    | decFail w0 hp0 =>
      simp only [labelWorker, Option.some.injEq] at hwl
      subst hwl
      rw [hp0] at hp
      simp only [Option.some.injEq] at hp
      subst hp
      have hq := setPhase_get_self
        { s with
          eng := { s.eng with
                   instancesWaiting := s.eng.instancesWaiting - 1 } }
        w0 Phase.top Phase.doneFail hp0
      rw [hq] at hp'
      simp only [Option.some.injEq] at hp'
      subst hp'
      decide
    | submit tanks healers dps => simp [labelWorker] at hwl
    | stopStep => simp [labelWorker] at hwl
  · intro s l s' w hst hne
    cases hst with
    | loadTrue w0 hp0 hr0 =>
      have hww : w0 ≠ w := fun h => hne (by simp [labelWorker, h])
      exact modifyIdx_get?_ne _ _ _ _ hww
    | loadFalse w0 hp0 hr0 =>
      have hww : w0 ≠ w := fun h => hne (by simp [labelWorker, h])
      exact modifyIdx_get?_ne _ _ _ _ hww
    | incWaiting w0 hp0 =>
      have hww : w0 ≠ w := fun h => hne (by simp [labelWorker, h])
      exact modifyIdx_get?_ne _ _ _ _ hww
    | seek w0 ok e hp0 ht =>
      have hww : w0 ≠ w := fun h => hne (by simp [labelWorker, h])
      exact modifyIdx_get?_ne _ _ _ _ hww
    | complete w0 d hp0 hd1 hd2 =>
      have hww : w0 ≠ w := fun h => hne (by simp [labelWorker, h])
      exact modifyIdx_get?_ne _ _ _ _ hww
    | decRun w0 hp0 =>
      have hww : w0 ≠ w := fun h => hne (by simp [labelWorker, h])
      exact modifyIdx_get?_ne _ _ _ _ hww
    | decFail w0 hp0 =>
      have hww : w0 ≠ w := fun h => hne (by simp [labelWorker, h])
      exact modifyIdx_get?_ne _ _ _ _ hww
    | submit tanks healers dps => rfl
    | stopStep => rfl
  · intro s w p hr ht12 hp hne
    cases p with
    | top =>
      exact ⟨Label.loadRun w, _, Phase.exited, Step.loadFalse s w hp hr, rfl,
        setPhase_get_self s w Phase.exited Phase.top hp, by decide⟩
    | preInc =>
      exact ⟨Label.incWaiting w, _, Phase.seeking, Step.incWaiting s w hp,
        rfl,
        setPhase_get_self
          { s with
            eng := { s.eng with
                     instancesWaiting := s.eng.instancesWaiting + 1 } }
          w Phase.seeking Phase.preInc hp,
        by decide⟩
    | seeking =>
      have hfail : tryFormParty w s.eng = some (false, s.eng) := by
        apply tryFormParty_fail
        rintro ⟨-, -, hrt⟩
        rw [hr] at hrt
        simp at hrt
      exact ⟨Label.seek w, _, Phase.doneFail,
        Step.seek s w false s.eng hp hfail, rfl,
        setPhase_get_self { s with eng := s.eng } w
          (if false then Phase.inDungeon else Phase.doneFail)
          Phase.seeking hp,
        by decide⟩
    | inDungeon =>
      exact ⟨Label.complete w, _, Phase.doneRun,
        Step.complete s w s.eng.t1 hp (le_refl _) ht12, rfl,
        setPhase_get_self { s with eng := completeDungeon w s.eng.t1 s.eng }
          w Phase.doneRun Phase.inDungeon hp,
        by decide⟩
    | doneRun =>
      exact ⟨Label.decWaiting w, _, Phase.top, Step.decRun s w hp, rfl,
        setPhase_get_self
          { s with
            eng := { s.eng with
                     instancesWaiting := s.eng.instancesWaiting - 1 } }
          w Phase.top Phase.doneRun hp,
        by decide⟩
    | doneFail =>
      exact ⟨Label.decWaiting w, _, Phase.top, Step.decFail s w hp, rfl,
        setPhase_get_self
          { s with
            eng := { s.eng with
                     instancesWaiting := s.eng.instancesWaiting - 1 } }
          w Phase.top Phase.doneFail hp,
        by decide⟩
    | exited => exact absurd rfl hne

/-- Concrete one-worker system with the running flag already down. -/
def sysStopped : Sys :=
  { eng := stop (mkLFG 1 0 0), phases := [Phase.top] }

/-- Witness for C7: in the concrete stopped system the worker at the loop
head has an enabled step that moves it strictly closer to exit. -/
theorem c7_witness :
    ∃ (l : Label) (s' : Sys) (p' : Phase), Step sysStopped l s' ∧
      labelWorker l = some 0 ∧ s'.phases.get? 0 = some p' ∧
      phaseMeasure p' < phaseMeasure Phase.top :=
  c7_running_one_way.2.2.2.2.2 sysStopped 0 Phase.top rfl (by decide) rfl
    (by decide)

end LFG
